import Mathlib

/-!
Verification of the PDF outline-extraction and persona-driven
section-ranking program (Challenge 1a `process_pdfs.py` and Challenge 1b
`process_collections_final.py`).

The Python source is shallowly embedded: strings are `String` manipulated
through their character lists, Python floats (font sizes, scores) are
modelled as `ℚ`, Python regular expressions are interpreted by a small
backtracking matcher over an explicit pattern AST, and dictionaries in
insertion order are association lists.
-/

namespace PdfSpec

/-! ## Python character and string primitives -/

/-- Python whitespace class for ASCII text: the characters matched by
regex class backslash-s and stripped by str.strip. -/
def pyWs (c : Char) : Bool :=
  c = ' ' || c = '\t' || c = '\n' || c = '\x0d' || c = '\x0c' || c = '\x0b'

/-- ASCII decimal digit, Python regex class backslash-d on ASCII input. -/
def pyDigit (c : Char) : Bool := '0' ≤ c && c ≤ '9'

/-- ASCII uppercase letter, regex class A to Z. -/
def pyUpper (c : Char) : Bool := 'A' ≤ c && c ≤ 'Z'

/-- ASCII lowercase letter, regex class a to z. -/
def pyLowerC (c : Char) : Bool := 'a' ≤ c && c ≤ 'z'

/-- Python str.lower on one ASCII character. -/
def pyLowChar (c : Char) : Char :=
  if pyUpper c then Char.ofNat (c.toNat + 32) else c

/-- Python str.lower on a string (ASCII). -/
def pyLow (s : String) : String := ⟨s.toList.map pyLowChar⟩

/-- Python str.strip: remove leading and trailing whitespace. -/
def pyStrip (s : String) : String :=
  ⟨(((s.toList.dropWhile pyWs).reverse.dropWhile pyWs).reverse)⟩

/-- Whether the first list is an initial run of the second. -/
def leadsChars : List Char → List Char → Bool
  | [], _ => true
  | _ :: _, [] => false
  | a :: as, b :: bs => a = b && leadsChars as bs

/-- Python substring membership `needle in hay` on character lists. -/
def inChars (needle : List Char) : List Char → Bool
  | [] => leadsChars needle []
  | c :: rest => leadsChars needle (c :: rest) || inChars needle rest

/-- Python substring membership `needle in hay` on strings. -/
def pyIn (needle hay : String) : Bool := inChars needle.toList hay.toList

/-- Python text.count on a single character: number of occurrences. -/
def countChar (c : Char) (s : String) : Nat := s.toList.count c

/-- Python str.split with an explicit one-character separator
(pieces may be empty, as in Python). -/
def splitChar (sep : Char) : List Char → List (List Char)
  | [] => [[]]
  | c :: rest =>
    if c = sep then [] :: splitChar sep rest
    else
      match splitChar sep rest with
      | [] => [[c]]
      | piece :: pieces => (c :: piece) :: pieces

/-- Python str.split('.') on a string. -/
def pySplitDot (s : String) : List String :=
  (splitChar '.' s.toList).map fun cs => (⟨cs⟩ : String)

/-- Counts the words of a character list, where words are maximal runs of
non-whitespace; the flag records whether the previous character was
inside a word. -/
def wordCountGo : List Char → Bool → Nat
  | [], _ => 0
  | c :: rest, inWord =>
    if pyWs c then wordCountGo rest false
    else (if inWord then 0 else 1) + wordCountGo rest true

/-- Python len(s.split()) with no split argument: number of maximal
non-whitespace runs. -/
def pyWordCount (s : String) : Nat := wordCountGo s.toList false

/-- Python re.sub of one-or-more-whitespace by a single space, as a state
machine over the characters; the flag records whether the previous kept
character came from a whitespace run. -/
def collapseGo : List Char → Bool → List Char
  | [], _ => []
  | c :: rest, prevWs =>
    if pyWs c then
      if prevWs then collapseGo rest true else ' ' :: collapseGo rest true
    else c :: collapseGo rest false

/-- Python re.sub matching whitespace runs, replacing each by one space. -/
def collapseWs (s : String) : String := ⟨collapseGo s.toList false⟩

/-- Python ' '.join(pieces). -/
def joinSpaces (pieces : List String) : String := String.intercalate " " pieces

/-- Python s[:n], the first n characters. -/
def pyTake (n : Nat) (s : String) : String := ⟨s.toList.take n⟩

/-! ## Python regular expressions

The patterns used by the program are interpreted by a small backtracking
matcher over an explicit AST.  `reRun` is continuation-passing and carries
fuel (every pattern in the program consumes at least one character per
star iteration, so fuel linear in the input length suffices; the chosen
fuel is generous).  `reMatch` mirrors Python re.match: the pattern must
match a leading part of the string, with end anchoring expressed by an
explicit eos node. -/

inductive RE where
  | cls (p : Char → Bool)
  | eos
  | seq (a b : RE)
  | star (a : RE)

/-- One-or-more repetition, regex plus. -/
def rep1 (a : RE) : RE := .seq a (.star a)

/-- Two-or-more repetition, regex brace 2 comma brace quantifier. -/
def rep2plus (a : RE) : RE := .seq a (.seq a (.star a))

/-- Backtracking matcher: does pattern r match some leading run of s such
that the continuation k accepts the remainder? -/
def reRun : Nat → RE → List Char → (List Char → Bool) → Bool
  | 0, _, _, _ => false
  | _ + 1, .cls p, s, k =>
    match s with
    | [] => false
    | c :: cs => p c && k cs
  | _ + 1, .eos, s, k => s.isEmpty && k s
  | f + 1, .seq a b, s, k => reRun f a s fun s2 => reRun f b s2 k
  | f + 1, .star a, s, k => k s || reRun f a s fun s2 => reRun f (.star a) s2 k

/-- Python re.match(r, s) viewed as a Boolean. -/
def reMatch (r : RE) (s : String) : Bool :=
  reRun ((s.length + 2) * 64) r s.toList fun _ => true

/-! ## Challenge 1a: process_pdfs.py -/

/-- The numbered-heading pattern of process_pdfs.py: one or more groups of
digits followed by a dot, then a whitespace character. -/
def numPat : RE :=
  .seq (rep1 (.seq (rep1 (.cls pyDigit)) (.cls fun c => c = '.'))) (.cls pyWs)

/-- Python re.match of the numbered pattern against a text. -/
def numPatMatch (text : String) : Bool := reMatch numPat text

/-- CUSTOM_KEYWORDS of process_pdfs.py: texts containing any of these
(case-insensitively) are always classified H1. -/
def CUSTOM_KEYWORDS : List String :=
  ["Revision History", "Table of Contents", "Acknowledgements", "References",
   "Appendix", "Summary", "Background", "Milestones", "Evaluation", "Business Plan",
   "Proposal", "Terms of Reference", "Membership", "Chair", "Meetings",
   "Financial and Administrative Policies"]

/-- HEADING_MIN_LENGTH of process_pdfs.py. -/
def HEADING_MIN_LENGTH : Nat := 4

/-- The Python truthiness test `prev_fontsize and span size > prev_fontsize`
used by detect_heading_level: None and 0.0 are falsy. -/
def prevGrowth (prev_fontsize : Option ℚ) (size : ℚ) : Bool :=
  match prev_fontsize with
  | none => false
  | some p => !(p = 0 : Bool) && decide (p < size)

/-- detect_heading_level of process_pdfs.py.  The span dictionary is
represented by its two consulted fields, size and flags; the result is the
level string or none. -/
def detect_heading_level (text : String) (size : ℚ) (flags : Nat)
    (prev_fontsize : Option ℚ) : Option String :=
  if numPatMatch text then
    let num_dots := countChar '.' text
    if num_dots = 1 then some "H1"
    else if num_dots = 2 then some "H2"
    else some "H3"
  else if CUSTOM_KEYWORDS.any (fun kw => pyIn (pyLow kw) (pyLow text)) then
    some "H1"
  else if prevGrowth prev_fontsize size then some "H1"
  else if flags &&& 2 ≠ 0 ∨ (16 : ℚ) ≤ size then some "H1"
  else if (14 : ℚ) ≤ size then some "H2"
  else if (12 : ℚ) ≤ size then some "H3"
  else none

/-- One outline entry: dictionaries with keys level, text, page. -/
structure OutlineItem where
  level : String
  text : String
  page : Int
deriving DecidableEq, Repr

/-- Fragment-merge loop of clean_outline: consecutive items with the same
page and level are merged into one by space-joining their texts; `last`
holds the pending item not yet emitted. -/
def mergeGo (last : Option OutlineItem) : List OutlineItem → List OutlineItem
  | [] =>
    match last with
    | some l => [l]
    | none => []
  | item :: rest =>
    match last with
    | some l =>
      if item.page = l.page ∧ item.level = l.level then
        mergeGo (some { l with text := l.text ++ " " ++ item.text }) rest
      else
        l :: mergeGo (some item) rest
    | none => mergeGo (some item) rest

/-- Stage 1 of clean_outline: merge adjacent same-page same-level fragments. -/
def mergeFragments (outline : List OutlineItem) : List OutlineItem :=
  mergeGo none outline

/-- Stage 2 of clean_outline: keep an item when its text has at least
HEADING_MIN_LENGTH characters or matches the numbered pattern. -/
def noiseFilter (outline : List OutlineItem) : List OutlineItem :=
  outline.filter fun o => HEADING_MIN_LENGTH ≤ o.text.length || numPatMatch o.text

/-- Deduplication loop of clean_outline: `seen` is the set of already
emitted (level, text, page) keys. -/
def dedupGo (seen : List (String × String × Int)) :
    List OutlineItem → List OutlineItem
  | [] => []
  | o :: rest =>
    let key := (o.level, o.text, o.page)
    if key ∈ seen then dedupGo seen rest
    else o :: dedupGo (key :: seen) rest

/-- Stage 3 of clean_outline: drop repeated (level, text, page) triples,
first occurrence wins. -/
def removeDuplicates (outline : List OutlineItem) : List OutlineItem :=
  dedupGo [] outline

/-- clean_outline of process_pdfs.py: fragment merge, then noise filter,
then deduplication. -/
def clean_outline (outline : List OutlineItem) : List OutlineItem :=
  removeDuplicates (noiseFilter (mergeFragments outline))

/-- One text span as consulted by process_pdfs.py: the text, the font size
and the style flags (bit 1 is bold). -/
structure PdfSpan where
  text : String
  size : ℚ
  flags : Nat
deriving DecidableEq, Repr

/-- A PDF document as seen through the external reader: metadata title,
embedded table of contents, and per-page span lists in reading order. -/
structure PdfDoc where
  metaTitle : String
  toc : List (Int × String × Int)
  pages : List (List PdfSpan)
deriving Repr

/-- The largest-font scan of a page used for title fallbacks: walk the
spans keeping the first span of strictly largest size whose stripped text
is non-empty; the state is (max_fontsize, title_candidate). -/
def titleScan (spans : List PdfSpan) : ℚ × String :=
  spans.foldl
    (fun st sp =>
      let text := pyStrip sp.text
      if st.1 < sp.size ∧ text ≠ "" then (sp.size, text) else st)
    (0, "")

/-- extract_pdf_outline of process_pdfs.py: map each TOC entry to an
outline item, and choose the title: metadata title if non-empty, else the
largest-font stripped span text of page 1 (empty when there are no pages). -/
def extract_pdf_outline (doc : PdfDoc) : String × List OutlineItem :=
  let outline := doc.toc.map fun e => OutlineItem.mk ("H" ++ toString e.1) e.2.1 e.2.2
  let title :=
    if doc.metaTitle ≠ "" then doc.metaTitle
    else
      match doc.pages with
      | [] => ""
      | first :: _ => (titleScan first).2
  (title, outline)

/-- State of the span walk of extract_outline_by_signals: previous font
size, running page-1 maximum font size and its candidate text, and the
outline accumulated so far. -/
structure SigState where
  prev : Option ℚ
  maxFs : ℚ
  cand : String
  outline : List OutlineItem
deriving Repr

/-- Per-span step of extract_outline_by_signals: skip empty stripped
texts (leaving prev unchanged), update the page-1 title candidate, classify
through detect_heading_level with the previous font size, then record the
span's size as the new previous font size. -/
def sigSpan (page_num : Nat) (st : SigState) (sp : PdfSpan) : SigState :=
  let text := pyStrip sp.text
  if text = "" then st
  else
    let st1 :=
      if page_num = 1 ∧ st.maxFs < sp.size then
        { st with maxFs := sp.size, cand := text }
      else st
    let level := detect_heading_level text sp.size sp.flags st1.prev
    let st2 := { st1 with prev := some sp.size }
    match level with
    | some l => { st2 with outline := st2.outline ++ [⟨l, text, (page_num : Int)⟩] }
    | none => st2

/-- extract_outline_by_signals of process_pdfs.py: walk all pages
(numbered from 1) and their spans with sigSpan; the title is the page-1
largest-font candidate. -/
def extract_outline_by_signals (doc : PdfDoc) : String × List OutlineItem :=
  let final :=
    (doc.pages.enum.map fun e => (e.1 + 1, e.2)).foldl
      (fun st pg => pg.2.foldl (sigSpan pg.1) st)
      ⟨none, 0, "", []⟩
  (final.cand, final.outline)

/-- The per-file body of process_pdfs: TOC strategy first, signal-strategy
fallback when it yields an empty outline, then clean_outline; the result
is the written (title, outline) pair. -/
def process_pdf (doc : PdfDoc) : String × List OutlineItem :=
  let r := extract_pdf_outline doc
  let r := if r.2 = [] then extract_outline_by_signals doc else r
  (r.1, clean_outline r.2)

/-! ## Challenge 1b: process_collections_final.py

Section identification over plain page text. -/

/-- A regex word of shape uppercase letter followed by one or more
lowercase letters. -/
def titleWord : RE := .seq (.cls pyUpper) (rep1 (.cls pyLowerC))

/-- A regex group of whitespace then one or more lowercase letters. -/
def wsLowers : RE := .seq (rep1 (.cls pyWs)) (rep1 (.cls pyLowerC))

/-- Pattern 1 of FinalPDFProcessor.section_patterns: all-caps header, an
uppercase letter then at least two characters that are uppercase or
whitespace, to end of line. -/
def secPat1 : RE :=
  .seq (.cls pyUpper) (.seq (rep2plus (.cls fun c => pyUpper c || pyWs c)) .eos)

/-- Pattern 2: numbered section, digits, a dot, whitespace, an uppercase
letter, then characters other than a dot to end of line. -/
def secPat2 : RE :=
  .seq (rep1 (.cls pyDigit))
    (.seq (.cls fun c => c = '.')
      (.seq (rep1 (.cls pyWs))
        (.seq (.cls pyUpper) (.seq (.star (.cls fun c => c ≠ '.')) .eos))))

/-- Pattern 3: title-case words separated by whitespace, to end of line. -/
def secPat3 : RE :=
  .seq titleWord (.seq (.star (.seq (rep1 (.cls pyWs)) titleWord)) .eos)

/-- Pattern 4: an uppercase letter, characters other than a dot, then a
colon at end of line. -/
def secPat4 : RE :=
  .seq (.cls pyUpper)
    (.seq (.star (.cls fun c => c ≠ '.')) (.seq (.cls fun c => c = ':') .eos))

/-- Pattern 5: a title-case word, lowercase words, then a parenthesised
group at end of line. -/
def secPat5 : RE :=
  .seq titleWord
    (.seq (.star wsLowers)
      (.seq (rep1 (.cls pyWs))
        (.seq (.cls fun c => c = '(')
          (.seq (rep1 (.cls fun c => c ≠ ')'))
            (.seq (.cls fun c => c = ')') .eos)))))

/-- Pattern 6: a title-case word, lowercase words, then one title-case
word at end of line. -/
def secPat6 : RE :=
  .seq titleWord
    (.seq (.star wsLowers) (.seq (rep1 (.cls pyWs)) (.seq titleWord .eos)))

/-- Pattern 7: a title-case word then lowercase words to end of line. -/
def secPat7 : RE := .seq titleWord (.seq (.star wsLowers) .eos)

/-- Pattern 8: two title-case words each followed by lowercase words. -/
def secPat8 : RE :=
  .seq titleWord
    (.seq (.star wsLowers)
      (.seq (rep1 (.cls pyWs))
        (.seq titleWord (.seq (.star wsLowers) .eos))))

/-- section_patterns of FinalPDFProcessor, in source order. -/
def section_patterns : List RE :=
  [secPat1, secPat2, secPat3, secPat4, secPat5, secPat6, secPat7, secPat8]

/-- The two additional quick checks of _is_section_header reuse these
anchored or unanchored patterns. -/
def capLowerStart : RE := .seq (.cls pyUpper) (.cls pyLowerC)

/-- header_indicators of _is_section_header. -/
def header_indicators : List String :=
  ["comprehensive guide", "coastal adventures", "culinary experiences",
   "packing tips", "nightlife", "entertainment", "water sports",
   "change flat forms", "create multiple", "convert clipboard",
   "fill and sign", "send document", "falafel", "ratatouille",
   "baba ganoush", "veggie sushi", "vegetable lasagna"]

/-- _is_section_header of FinalPDFProcessor: length gate, the eight
patterns, two looser pattern-plus-word-count checks, then the literal
indicator substrings on the lowercased line. -/
def is_section_header (line : String) : Bool :=
  if line.length < 3 || 250 < line.length then false
  else if section_patterns.any (fun p => reMatch p line) then true
  else if reMatch secPat7 line && pyWordCount line ≤ 8 then true
  else if reMatch capLowerStart line && pyWordCount line ≤ 10 then true
  else header_indicators.any fun ind => pyIn ind (pyLow line)

/-- A section as built by identify_sections: dictionary with keys title,
page_number, start_line, content, document (None until the collection
loop fills the filename in). -/
structure Sec where
  title : String
  page_number : Nat
  start_line : Nat
  content : List String
  document : Option String
deriving DecidableEq, Repr

/-- The inner line loop of identify_sections for one page: `i` is the
enumerate counter over raw lines, `cur` the currently open section.
Blank stripped lines are skipped, a header line closes the open section
and opens a new one, other lines accumulate into the open section, and a
trailing open section is emitted at end of page. -/
def pageGo (pg : Nat) : List String → Nat → Option Sec → List Sec
  | [], _, cur =>
    match cur with
    | some c => [c]
    | none => []
  | l :: rest, i, cur =>
    let line := pyStrip l
    if line = "" then pageGo pg rest (i + 1) cur
    else if is_section_header line then
      (match cur with
       | some c => [c]
       | none => []) ++ pageGo pg rest (i + 1) (some ⟨line, pg, i, [], none⟩)
    else
      match cur with
      | some c => pageGo pg rest (i + 1) (some { c with content := c.content ++ [line] })
      | none => pageGo pg rest (i + 1) none

/-- Python text.split on the newline character. -/
def pyLines (text : String) : List String :=
  (splitChar '\n' text.toList).map fun cs => (⟨cs⟩ : String)

/-- identify_sections of FinalPDFProcessor: the outer loop over the page
dictionary in insertion order, appending each page's sections; the open
section is reset at every page boundary. -/
def identify_sections (pages : List (Nat × String)) : List Sec :=
  pages.foldl (fun sections pg => sections ++ pageGo pg.1 (pyLines pg.2) 0 none) []

/-! Relevance scoring. -/

/-- persona_keywords of FinalRelevanceScorer, as an association list in
source order. -/
def persona_keywords : List (String × List String) :=
  [("travel planner",
    ["travel", "trip", "itinerary", "accommodation", "hotel", "restaurant",
     "attraction", "activity", "planning", "schedule", "booking", "reservation",
     "transport", "transportation", "guide", "tour", "visit", "explore", "city",
     "coastal", "adventure", "nightlife", "entertainment", "cuisine", "culture",
     "comprehensive", "major cities", "coastal adventures", "culinary experiences",
     "packing tips", "tips and tricks", "water sports", "beach", "mediterranean"]),
   ("hr professional",
    ["form", "fillable", "onboarding", "compliance", "employee", "hr",
     "human resources", "document", "signature", "e-signature", "workflow",
     "process", "template", "field", "input", "validation", "create", "convert",
     "edit", "export", "share", "request", "send", "signatures", "change flat forms",
     "create multiple pdfs", "convert clipboard", "fill and sign", "send document"]),
   ("food contractor",
    ["recipe", "cooking", "ingredient", "meal", "dish", "cuisine",
     "vegetarian", "buffet", "dinner", "lunch", "breakfast", "menu",
     "preparation", "cooking time", "serving", "portion", "nutrition",
     "falafel", "ratatouille", "baba ganoush", "sushi", "lasagna", "vegetable",
     "veggie sushi rolls", "vegetable lasagna", "escalivada", "macaroni"])]

/-- job_keywords of FinalRelevanceScorer. -/
def job_keywords : List (String × List String) :=
  [("plan a trip",
    ["itinerary", "schedule", "accommodation", "transport", "attraction",
     "activity", "booking", "reservation", "guide", "tour", "cities", "coastal",
     "adventures", "nightlife", "entertainment", "tips", "tricks", "comprehensive guide",
     "coastal adventures", "culinary experiences", "packing tips", "water sports"]),
   ("create and manage fillable forms",
    ["form", "fillable", "field", "input", "signature",
     "e-signature", "template", "workflow", "process", "create",
     "convert", "edit", "export", "request", "send", "change flat forms",
     "create multiple pdfs", "convert clipboard", "fill and sign",
     "send document"]),
   ("prepare vegetarian buffet",
    ["recipe", "vegetarian", "buffet", "ingredient", "cooking",
     "meal", "dish", "preparation", "serving", "menu", "falafel",
     "ratatouille", "baba ganoush", "sushi", "lasagna", "vegetable",
     "veggie sushi rolls", "vegetable lasagna"])]

/-- sample_titles of score_section. -/
def sample_titles : List (String × List String) :=
  [("travel planner",
    ["comprehensive guide to major cities", "coastal adventures",
     "culinary experiences", "packing tips", "nightlife and entertainment"]),
   ("hr professional",
    ["change flat forms to fillable", "create multiple pdfs",
     "convert clipboard", "fill and sign", "send document"]),
   ("food contractor",
    ["falafel", "ratatouille", "baba ganoush", "veggie sushi rolls",
     "vegetable lasagna"])]

/-- The fixed high-signal terms of the flat plus-20 title bonus. -/
def bonus_terms : List String :=
  ["form", "fillable", "falafel", "ratatouille", "coastal", "comprehensive"]

/-- Python dict.get(key, default empty list) over an association list. -/
def lookupKw (tbl : List (String × List String)) (key : String) : List String :=
  match tbl.find? fun e => e.1 = key with
  | some e => e.2
  | none => []

/-- The lowercased space-joined content of a section, as score_section
builds it. -/
def secContentText (sec : Sec) : String := pyLow (joinSpaces sec.content)

/-- The keyword_matches count of score_section: over the concatenation of
the persona and job keyword lists, count the keywords occurring in the
lowercased content or the lowercased title. -/
def keyword_matches_of (sec : Sec) (persona job : String) : Nat :=
  let content := secContentText sec
  let title := pyLow sec.title
  let all_keywords :=
    lookupKw persona_keywords (pyLow persona) ++ lookupKw job_keywords (pyLow job)
  (all_keywords.filter fun kw => pyIn kw content || pyIn kw title).length

/-- Rational addition written through mkRat.  The library addition on ℚ is
irreducible and blocks evaluation of concrete scores; this definition is
proved equal to it in qAdd_eq_add below. -/
def qAdd (a b : ℚ) : ℚ := mkRat (a.num * b.den + b.num * a.den) (a.den * b.den)

/-- Rational minimum written as a comparison, proved equal to min in
qMin_eq_min below. -/
def qMin (a b : ℚ) : ℚ := if a ≤ b then a else b

theorem qAdd_eq_add (a b : ℚ) : qAdd a b = a + b := (Rat.add_def' a b).symm

theorem qMin_eq_min (a b : ℚ) : qMin a b = min a b := (min_def a b).symm

/-- score_section of FinalRelevanceScorer: keyword matches weighted 2,
title matches weighted 10, the capped content-length signal, the flat
plus-20 bonus for high-signal title terms, and plus 30 per matching
curated sample title of the persona. -/
def score_section (sec : Sec) (persona job : String) : ℚ :=
  let content := secContentText sec
  let title := pyLow sec.title
  let all_keywords :=
    lookupKw persona_keywords (pyLow persona) ++ lookupKw job_keywords (pyLow job)
  let keyword_matches := keyword_matches_of sec persona job
  let title_relevance := (all_keywords.filter fun kw => pyIn kw title).length
  let content_length := pyWordCount content
  let score : ℚ :=
    qAdd (qAdd (mkRat (keyword_matches * 2) 1) (mkRat (title_relevance * 10) 1))
      (qMin (mkRat content_length 50) 3)
  let score :=
    if bonus_terms.any (fun t => pyIn t (pyLow title)) then qAdd score (mkRat 20 1)
    else score
  match sample_titles.find? fun e => e.1 = pyLow persona with
  | some e =>
    qAdd score (mkRat (30 * ((e.2.filter fun t => pyIn t (pyLow title)).length : Int)) 1)
  | none => score

/-! The collection processor. -/

/-- One entry of the extracted_sections output list. -/
structure ExtractedEntry where
  document : String
  section_title : String
  importance_rank : Nat
  page_number : Nat
deriving DecidableEq, Repr

/-- One entry of the subsection_analysis output list. -/
structure SubEntry where
  document : String
  refined_text : String
  page_number : Nat
deriving DecidableEq, Repr

/-- _extract_refined_text of FinalCollectionProcessor: join the content
lines with spaces, collapse whitespace runs, and when longer than 500
characters keep the first two dot-separated sentences when there are at
least two, else the first 500 characters; the result is finally stripped. -/
def extract_refined_text (content_lines : List String) : String :=
  match content_lines with
  | [] => ""
  | _ =>
    let text := joinSpaces content_lines
    let text := collapseWs text
    let text :=
      if 500 < text.length then
        let sentences := pySplitDot text
        if 1 < sentences.length then
          String.intercalate ". " (sentences.take 2) ++ "."
        else pyTake 500 text
      else text
    pyStrip text

/-- Stable insertion used to model Python list.sort: the new element goes
past exactly the elements strictly below it, so it lands before any
element it ties with. -/
def stInsert (le : α → α → Bool) (a : α) : List α → List α
  | [] => [a]
  | b :: bs => if le b a && !le a b then b :: stInsert le a bs else a :: b :: bs

/-- Model of Python list.sort with a key comparison: stable sort by
repeated stable insertion (elements are inserted from last to first, so
each lands before the elements it ties with that came later). -/
def stableSortBy (le : α → α → Bool) : List α → List α
  | [] => []
  | x :: xs => stInsert le x (stableSortBy le xs)

/-- The descending stable comparison used for
scored_sections.sort(key score, reverse True). -/
def scoreDesc (a b : Sec × ℚ) : Bool := decide (b.2 ≤ a.2)

/-- The ascending stable comparison used for
extracted_sections.sort(key importance_rank). -/
def rankLe (a b : ExtractedEntry) : Bool := decide (a.importance_rank ≤ b.importance_rank)

/-- The scored section list of one document: identify the sections of its
pages, fill in the document field, and pair each with its score. -/
def perDocScored (persona job fn : String) (pages : List (Nat × String)) :
    List (Sec × ℚ) :=
  (identify_sections pages).map fun s =>
    let s2 := { s with document := some fn }
    (s2, score_section s2 persona job)

/-- The retained top-3 scored sections of one document: stable descending
sort by score, then take 3. -/
def perDocTop (persona job fn : String) (pages : List (Nat × String)) :
    List (Sec × ℚ) :=
  (stableSortBy scoreDesc (perDocScored persona job fn pages)).take 3

/-- The per-document emission of the collection loop: one extracted entry
(with importance_rank the 1-based position) and one subsection entry per
retained section, in the same order. -/
def perDocEmit (persona job fn : String) (pages : List (Nat × String)) :
    List ExtractedEntry × List SubEntry :=
  let top := perDocTop persona job fn pages
  (top.enum.map fun e => ⟨fn, e.2.1.title, e.1 + 1, e.2.1.page_number⟩,
   top.map fun t => ⟨fn, extract_refined_text t.1.content, t.1.page_number⟩)

/-- The document loop of process_collection: each document entry carries
its filename and, when the PDF file exists, its extracted pages; missing
files are logged (third component) and skipped. -/
def docLoop (persona job : String) :
    List (String × Option (List (Nat × String))) →
      List ExtractedEntry × List SubEntry × List String
  | [] => ([], [], [])
  | (fn, pages?) :: rest =>
    match pages? with
    | none =>
      let r := docLoop persona job rest
      (r.1, r.2.1, fn :: r.2.2)
    | some pages =>
      let e := perDocEmit persona job fn pages
      let r := docLoop persona job rest
      (e.1 ++ r.1, e.2 ++ r.2.1, r.2.2)

/-- The final output object of process_collection (metadata timestamp and
serialization are external). -/
structure CollOutput where
  input_documents : List String
  extracted_sections : List ExtractedEntry
  subsection_analysis : List SubEntry
deriving DecidableEq, Repr

/-- The input configuration JSON of a collection. -/
structure InputConfig where
  documents : List String
  persona : String
  job : String
deriving DecidableEq, Repr

/-- A collection directory as process_collection sees it: the optional
input configuration file, the existence of the PDFs directory under each
tried casing, and the extracted pages of each PDF file that exists. -/
structure CollectionFS where
  config : Option InputConfig
  hasPDFsDir : Bool
  hasPDFSDir : Bool
  pdfFiles : List (String × List (Nat × String))

/-- Page lookup of one document's PDF file: none when the file is
missing. -/
def findPdf (fs : CollectionFS) (fn : String) : Option (List (Nat × String)) :=
  match fs.pdfFiles.find? fun e => e.1 = fn with
  | some e => some e.2
  | none => none

/-- process_collection of FinalCollectionProcessor: missing configuration
or missing PDFs directory (both casings) raise; otherwise the documents
are processed in order, missing PDF files are skipped with a log record,
and the extracted sections are finally stable-sorted by importance rank.
The second result component is the warning log. -/
def process_collection (fs : CollectionFS) :
    Except String (CollOutput × List String) :=
  match fs.config with
  | none => .error "Input file not found"
  | some cfg =>
    if fs.hasPDFsDir || fs.hasPDFSDir then
      let resolved := cfg.documents.map fun fn => (fn, findPdf fs fn)
      let r := docLoop cfg.persona cfg.job resolved
      .ok ({ input_documents := cfg.documents,
             extracted_sections := stableSortBy rankLe r.1,
             subsection_analysis := r.2.1 }, r.2.2)
    else .error "PDFs directory not found"

/-- The exit behaviour of main: error paths exit 1 with no output, the
success path exits 0 with the written output. -/
def mainRun (fs : CollectionFS) : Nat × Option CollOutput :=
  match process_collection fs with
  | .error _ => (1, none)
  | .ok r => (0, some r.1)

/-! ## Claim-side definitions

These definitions follow the wording of the specification (not the
source); they exist to be compared with the source-derived definitions
above. -/

/-- Modelled from the spec: the number of dot-terminated numeric groups
at the start of a text, read greedily (digits then a dot, repeated); the
first argument is fuel bounded by the text length. -/
def groupScan : Nat → List Char → Nat
  | 0, _ => 0
  | f + 1, cs =>
    match cs with
    | [] => 0
    | c :: rest =>
      if pyDigit c then
        match rest.dropWhile pyDigit with
        | '.' :: r2 => 1 + groupScan f r2
        | _ => 0
      else 0

/-- Modelled from the spec: how many dot-separated numeric groups make up
the numbered prefix of a text. -/
def prefixGroupCount (s : String) : Nat := groupScan (s.length + 1) s.toList

/-- Modelled from the spec: count of distinct keywords of the union of
the persona list and the job list occurring in the lowercased content or
title (a keyword present in both lists counted once). -/
def keyword_matches_union (sec : Sec) (persona job : String) : Nat :=
  let content := secContentText sec
  let title := pyLow sec.title
  (((lookupKw persona_keywords (pyLow persona) ++
      lookupKw job_keywords (pyLow job)).dedup).filter
    fun kw => pyIn kw content || pyIn kw title).length

/-- The keyword hits of one keyword list against a section, used to state
how keyword_matches_of decomposes over the two lists. -/
def kwHits (sec : Sec) (kws : List String) : Nat :=
  (kws.filter fun kw =>
    pyIn kw (secContentText sec) || pyIn kw (pyLow sec.title)).length

/-- The enumerated stripped non-blank lines of a raw line list, starting
at line index i. -/
def prepLines (i : Nat) : List String → List (Nat × String)
  | [] => []
  | l :: rest =>
    let s := pyStrip l
    if s = "" then prepLines (i + 1) rest
    else (i, s) :: prepLines (i + 1) rest

/-- Modelled from the spec: sections of one page as blocks of its
enumerated stripped non-blank lines.  Lines before the first header are
dropped; each header line opens a section whose content is every
following non-header line up to (not including) the next header line of
the same page or the end of the page. -/
def specPageBlocks (pg : Nat) : List (Nat × String) → List Sec
  | [] => []
  | (i, l) :: rest =>
    if is_section_header l then
      ⟨l, pg, i, (rest.takeWhile fun q => !is_section_header q.2).map Prod.snd, none⟩
        :: specPageBlocks pg (rest.dropWhile fun q => !is_section_header q.2)
    else specPageBlocks pg rest
termination_by ls => ls.length
decreasing_by
  all_goals simp only [List.length_cons]
  · exact Nat.lt_succ_of_le ((List.dropWhile_sublist _).length_le)
  · exact Nat.lt_succ_self _

/-- The deduplication key of an outline item. -/
def okey (o : OutlineItem) : String × String × Int := (o.level, o.text, o.page)

/-! ## Concrete evaluation inputs -/

/-- A small page whose text yields two sections (two all-caps headers,
each followed by one lower-case content line). -/
def cePage : String := "HEADER ONE\nalpha\nHEADER TWO\nbeta"

/-- Two documents with identical two-section pages, as resolved document
entries. -/
def ceDocs : List (String × Option (List (Nat × String))) :=
  [("a.pdf", some [(1, cePage)]), ("b.pdf", some [(1, cePage)])]

/-- A collection configuration over the two documents, with a persona and
job outside the keyword tables. -/
def ceConfig : InputConfig := ⟨["a.pdf", "b.pdf"], "", ""⟩

/-- A complete collection directory for the two documents. -/
def ceFs : CollectionFS :=
  ⟨some ceConfig, true, false, [("a.pdf", [(1, cePage)]), ("b.pdf", [(1, cePage)])]⟩

/-- The successful result of processing ceFs. -/
def ceOk : CollOutput × List String :=
  ((process_collection ceFs).toOption).getD (⟨[], [], []⟩, [])

/-- The same collection directory with the PDFs directory absent under
both casings. -/
def ceNoDirFs : CollectionFS := ⟨some ceConfig, false, false, []⟩

/-- Resolved document entries where the second PDF file is missing. -/
def ceMissDocs : List (String × Option (List (Nat × String))) :=
  [("a.pdf", some [(1, cePage)]), ("miss.pdf", none)]

/-! ## Helper lemmas -/

theorem except_ok_of_toOption {ε α : Type} (e : Except ε α) (x : α)
    (h : e.toOption = some x) : e = Except.ok x := by
  cases e with
  | error err => simp [Except.toOption] at h
  | ok v =>
    simp only [Except.toOption, Option.some.injEq] at h
    rw [h]

theorem dedupGo_keys (xs : List OutlineItem) :
    ∀ seen, ((dedupGo seen xs).map okey).Nodup ∧
      ∀ k ∈ (dedupGo seen xs).map okey, k ∉ seen := by
  induction xs with
  | nil => intro seen; simp [dedupGo]
  | cons x rest ih =>
    intro seen
    by_cases hx : (x.level, x.text, x.page) ∈ seen
    · simpa [dedupGo, hx] using ih seen
    · have h2 := ih ((x.level, x.text, x.page) :: seen)
      refine ⟨?_, ?_⟩
      · simp only [dedupGo, if_neg hx, List.map_cons, List.nodup_cons]
        refine ⟨fun hmem => ?_, h2.1⟩
        have := h2.2 _ hmem
        simp [okey] at this
      · intro k hk
        simp only [dedupGo, if_neg hx, List.map_cons, List.mem_cons] at hk
        rcases hk with rfl | hk
        · simpa [okey] using hx
        · have := h2.2 _ hk
          intro hkseen
          exact this (List.mem_cons_of_mem _ hkseen)

theorem dedupGo_fixed (xs : List OutlineItem) :
    ∀ seen, ((xs.map okey).Nodup) → (∀ k ∈ xs.map okey, k ∉ seen) →
      dedupGo seen xs = xs := by
  induction xs with
  | nil => intro seen _ _; rfl
  | cons x rest ih =>
    intro seen hnd hdisj
    have hx : (x.level, x.text, x.page) ∉ seen := by
      have := hdisj (okey x) (by simp)
      simpa [okey] using this
    simp only [List.map_cons, List.nodup_cons] at hnd
    rw [dedupGo, if_neg hx]
    congr 1
    refine ih _ hnd.2 ?_
    intro k hk
    simp only [List.mem_cons]
    rintro (rfl | hkseen)
    · exact hnd.1 (by simpa [okey] using hk)
    · exact hdisj k (List.mem_cons_of_mem _ hk) hkseen

theorem stInsert_perm (le : α → α → Bool) (a : α) (l : List α) :
    (stInsert le a l).Perm (a :: l) := by
  induction l with
  | nil => exact List.Perm.refl _
  | cons b bs ih =>
    rw [stInsert]
    by_cases h : (le b a && !le a b) = true
    · rw [if_pos h]
      exact (ih.cons b).trans (List.Perm.swap a b bs)
    · rw [if_neg h]

theorem stableSortBy_perm (le : α → α → Bool) (xs : List α) :
    (stableSortBy le xs).Perm xs := by
  induction xs with
  | nil => exact List.Perm.refl _
  | cons x xs ih =>
    exact (stInsert_perm le x (stableSortBy le xs)).trans (ih.cons x)

theorem stInsert_pairwise (le : α → α → Bool)
    (htrans : ∀ x y z, le x y = true → le y z = true → le x z = true)
    (htotal : ∀ x y, (le x y || le y x) = true)
    (a : α) (l : List α) (hl : l.Pairwise fun x y => le x y = true) :
    (stInsert le a l).Pairwise fun x y => le x y = true := by
  induction l with
  | nil => simp [stInsert]
  | cons b bs ih =>
    rw [List.pairwise_cons] at hl
    rw [stInsert]
    by_cases h : (le b a && !le a b) = true
    · rw [if_pos h]
      rw [List.pairwise_cons]
      refine ⟨?_, ih hl.2⟩
      intro x hx
      have hx2 := List.mem_cons.mp ((stInsert_perm le a bs).mem_iff.mp hx)
      rcases hx2 with rfl | hx2
      · exact (Bool.and_eq_true _ _ |>.mp h).1
      · exact hl.1 x hx2
    · rw [if_neg h]
      have hab : le a b = true := by
        rcases Bool.or_eq_true _ _ |>.mp (htotal a b) with hab | hba
        · exact hab
        · by_cases hab2 : le a b = true
          · exact hab2
          · exact absurd (by simp [hba, hab2]) h
      rw [List.pairwise_cons]
      refine ⟨?_, List.pairwise_cons.mpr hl⟩
      intro x hx
      rcases List.mem_cons.mp hx with rfl | hx
      · exact hab
      · exact htrans a b x hab (hl.1 x hx)

theorem stableSortBy_pairwise (le : α → α → Bool)
    (htrans : ∀ x y z, le x y = true → le y z = true → le x z = true)
    (htotal : ∀ x y, (le x y || le y x) = true)
    (xs : List α) :
    (stableSortBy le xs).Pairwise fun x y => le x y = true := by
  induction xs with
  | nil => simp [stableSortBy]
  | cons x xs ih => exact stInsert_pairwise le htrans htotal x _ ih

theorem stInsert_filter_pos (le : α → α → Bool) (c : α → Bool)
    (hc : ∀ x y, c x = true → c y = true → le x y = true)
    (a : α) (hca : c a = true) (l : List α) :
    (stInsert le a l).filter c = a :: l.filter c := by
  induction l with
  | nil => simp [stInsert, hca]
  | cons b bs ih =>
    rw [stInsert]
    by_cases h : (le b a && !le a b) = true
    · have hcb : c b = false := by
        by_cases hcb2 : c b = true
        · have := hc a b hca hcb2
          simp [this] at h
        · simpa using hcb2
      rw [if_pos h]
      simp [List.filter_cons, hcb, ih]
    · rw [if_neg h]
      simp [List.filter_cons, hca]

theorem stInsert_filter_neg (le : α → α → Bool) (c : α → Bool)
    (a : α) (hca : c a = false) (l : List α) :
    (stInsert le a l).filter c = l.filter c := by
  induction l with
  | nil => simp [stInsert, hca]
  | cons b bs ih =>
    rw [stInsert]
    by_cases h : (le b a && !le a b) = true
    · rw [if_pos h]
      simp only [List.filter_cons, ih]
    · rw [if_neg h]
      simp [List.filter_cons, hca]

theorem stableSortBy_filter (le : α → α → Bool) (c : α → Bool)
    (hc : ∀ x y, c x = true → c y = true → le x y = true)
    (xs : List α) :
    (stableSortBy le xs).filter c = xs.filter c := by
  induction xs with
  | nil => rfl
  | cons x xs ih =>
    rw [stableSortBy]
    by_cases hcx : c x = true
    · rw [stInsert_filter_pos le c hc x hcx, ih, List.filter_cons, if_pos hcx]
    · rw [stInsert_filter_neg le c x (by simpa using hcx), ih, List.filter_cons,
        if_neg (by simpa using hcx)]

theorem specPageBlocks_nil (pg : Nat) : specPageBlocks pg [] = [] := by
  rw [specPageBlocks]

theorem specPageBlocks_cons (pg i : Nat) (l : String) (rest : List (Nat × String)) :
    specPageBlocks pg ((i, l) :: rest) =
      if is_section_header l then
        ⟨l, pg, i, (rest.takeWhile fun q => !is_section_header q.2).map Prod.snd, none⟩
          :: specPageBlocks pg (rest.dropWhile fun q => !is_section_header q.2)
      else specPageBlocks pg rest := by
  rw [specPageBlocks]

theorem pageGo_eq_blocks (pg : Nat) (lines : List String) :
    ∀ i, (pageGo pg lines i none = specPageBlocks pg (prepLines i lines)) ∧
      ∀ c, pageGo pg lines i (some c) =
        { c with content := c.content ++
            ((prepLines i lines).takeWhile fun q => !is_section_header q.2).map Prod.snd }
          :: specPageBlocks pg
              ((prepLines i lines).dropWhile fun q => !is_section_header q.2) := by
  induction lines with
  | nil =>
    intro i
    refine ⟨by simp [pageGo, prepLines, specPageBlocks_nil], fun c => ?_⟩
    simp [pageGo, prepLines, specPageBlocks_nil]
  | cons l rest ih =>
    intro i
    by_cases hs : pyStrip l = ""
    · constructor
      · rw [pageGo, prepLines]
        simp only [hs, reduceIte, if_pos rfl]
        exact (ih (i + 1)).1
      · intro c
        rw [pageGo, prepLines]
        simp only [hs, reduceIte, if_pos rfl]
        exact (ih (i + 1)).2 c
    · by_cases hh : is_section_header (pyStrip l) = true
      · constructor
        · rw [pageGo, prepLines]
          simp only [if_neg hs, hh, reduceIte, List.nil_append]
          rw [specPageBlocks_cons, if_pos hh]
          have h2 := (ih (i + 1)).2 ⟨pyStrip l, pg, i, [], none⟩
          simpa using h2
        · intro c
          rw [pageGo, prepLines]
          simp only [if_neg hs, hh, reduceIte, List.singleton_append]
          rw [List.takeWhile_cons, List.dropWhile_cons]
          simp only [hh, Bool.not_true, Bool.false_eq_true, reduceIte]
          rw [specPageBlocks_cons, if_pos hh]
          simp only [List.map_nil, List.append_nil]
          have h2 := (ih (i + 1)).2 ⟨pyStrip l, pg, i, [], none⟩
          rw [h2]
          simp
      · have hh2 : is_section_header (pyStrip l) = false := by simpa using hh
        constructor
        · rw [pageGo, prepLines]
          simp only [if_neg hs, hh2, Bool.false_eq_true, reduceIte]
          rw [specPageBlocks_cons, if_neg (by simp [hh2])]
          exact (ih (i + 1)).1
        · intro c
          rw [pageGo, prepLines]
          simp only [if_neg hs, hh2, Bool.false_eq_true, reduceIte]
          rw [List.takeWhile_cons, List.dropWhile_cons]
          simp only [hh2, Bool.not_false, reduceIte]
          have h2 := (ih (i + 1)).2 { c with content := c.content ++ [pyStrip l] }
          rw [h2]
          simp [List.append_assoc]

theorem identify_sections_flatMap (pages : List (Nat × String)) :
    identify_sections pages =
      pages.flatMap fun pq => pageGo pq.1 (pyLines pq.2) 0 none := by
  have key : ∀ (ps : List (Nat × String)) (acc : List Sec),
      ps.foldl (fun sections pg => sections ++ pageGo pg.1 (pyLines pg.2) 0 none) acc =
        acc ++ ps.flatMap fun pq => pageGo pq.1 (pyLines pq.2) 0 none := by
    intro ps
    induction ps with
    | nil => intro acc; simp
    | cons p rest ih =>
      intro acc
      simp only [List.foldl_cons, List.flatMap_cons, ih, List.append_assoc]
  simpa using key pages []

theorem perDocEmit_length_le (persona job fn : String) (pages : List (Nat × String)) :
    (perDocEmit persona job fn pages).1.length ≤ 3 := by
  simp only [perDocEmit, List.length_map, List.enum_length, perDocTop]
  exact le_trans (List.length_take_le _ _) (by simp)

theorem perDocEmit_document (persona job fn : String) (pages : List (Nat × String)) :
    ∀ e ∈ (perDocEmit persona job fn pages).1, e.document = fn := by
  intro e he
  simp only [perDocEmit, List.mem_map] at he
  obtain ⟨x, _, rfl⟩ := he
  rfl

theorem perDocEmit_rank (persona job fn : String) (pages : List (Nat × String))
    (i : Nat) (hi : i < (perDocEmit persona job fn pages).1.length) :
    ((perDocEmit persona job fn pages).1.get ⟨i, hi⟩).importance_rank = i + 1 := by
  have hi2 : i < (perDocTop persona job fn pages).enum.length := by
    simpa [perDocEmit] using hi
  simp only [perDocEmit, List.get_eq_getElem, List.getElem_map]
  rw [List.getElem_enum]

theorem docLoop_eq (p j : String) (docs : List (String × Option (List (Nat × String)))) :
    docLoop p j docs =
      ((docs.filterMap fun d => d.2.map fun pgs => (d.1, pgs)).flatMap
          fun d => (perDocEmit p j d.1 d.2).1,
       (docs.filterMap fun d => d.2.map fun pgs => (d.1, pgs)).flatMap
          fun d => (perDocEmit p j d.1 d.2).2,
       (docs.filter fun d => d.2.isNone).map Prod.fst) := by
  induction docs with
  | nil => rfl
  | cons d rest ih =>
    obtain ⟨fn, pages?⟩ := d
    cases pages? with
    | none => simp [docLoop, ih, List.filterMap_cons, List.filter_cons]
    | some pages => simp [docLoop, ih, List.filterMap_cons, List.filter_cons]

theorem docLoop_lengths (p j : String)
    (docs : List (String × Option (List (Nat × String)))) :
    (docLoop p j docs).1.length = (docLoop p j docs).2.1.length := by
  induction docs with
  | nil => rfl
  | cons d rest ih =>
    obtain ⟨fn, pages?⟩ := d
    cases pages? with
    | none => simpa [docLoop] using ih
    | some pages =>
      simp [docLoop, perDocEmit, List.length_append, List.enum_length, ih]

theorem pyStrip_length_le (s : String) : (pyStrip s).length ≤ s.length := by
  simp only [pyStrip, String.length]
  calc (((s.toList.dropWhile pyWs).reverse.dropWhile pyWs).reverse).length
      = ((s.toList.dropWhile pyWs).reverse.dropWhile pyWs).length := List.length_reverse _
    _ ≤ (s.toList.dropWhile pyWs).reverse.length :=
        (List.dropWhile_sublist _).length_le
    _ = (s.toList.dropWhile pyWs).length := List.length_reverse _
    _ ≤ s.toList.length := (List.dropWhile_sublist _).length_le

theorem rankLe_trans : ∀ a b c : ExtractedEntry,
    rankLe a b = true → rankLe b c = true → rankLe a c = true := by
  intro a b c hab hbc
  simp only [rankLe, decide_eq_true_eq] at *
  exact le_trans hab hbc

theorem rankLe_total : ∀ a b : ExtractedEntry, (rankLe a b || rankLe b a) = true := by
  intro a b
  simp only [rankLe, Bool.or_eq_true, decide_eq_true_eq]
  exact Nat.le_total _ _

theorem scoreDesc_trans : ∀ a b c : Sec × ℚ,
    scoreDesc a b = true → scoreDesc b c = true → scoreDesc a c = true := by
  intro a b c hab hbc
  simp only [scoreDesc, decide_eq_true_eq] at *
  exact le_trans hbc hab

theorem scoreDesc_total : ∀ a b : Sec × ℚ, (scoreDesc a b || scoreDesc b a) = true := by
  intro a b
  simp only [scoreDesc, Bool.or_eq_true, decide_eq_true_eq]
  exact le_total _ _

theorem flatMap_doc_mem (p j : String)
    (present : List (String × List (Nat × String))) :
    ∀ e ∈ present.flatMap fun d => (perDocEmit p j d.1 d.2).1,
      e.document ∈ present.map Prod.fst := by
  intro e he
  rw [List.mem_flatMap] at he
  obtain ⟨d, hd, he2⟩ := he
  rw [perDocEmit_document p j d.1 d.2 e he2]
  exact List.mem_map_of_mem Prod.fst hd

theorem flatMap_filter_doc_le (p j : String)
    (present : List (String × List (Nat × String)))
    (hnd : (present.map Prod.fst).Nodup) (name : String) :
    ((present.flatMap fun d => (perDocEmit p j d.1 d.2).1).filter
        fun e => decide (e.document = name)).length ≤ 3 := by
  induction present with
  | nil => simp
  | cons d rest ih =>
    simp only [List.map_cons, List.nodup_cons] at hnd
    rw [List.flatMap_cons, List.filter_append, List.length_append]
    by_cases hd : d.1 = name
    · have h1 : ((perDocEmit p j d.1 d.2).1.filter
          fun e => decide (e.document = name)).length ≤ 3 :=
        le_trans (List.length_filter_le _ _) (perDocEmit_length_le p j d.1 d.2)
      have h2 : ((rest.flatMap fun d => (perDocEmit p j d.1 d.2).1).filter
          fun e => decide (e.document = name)) = [] := by
        rw [List.filter_eq_nil_iff]
        intro e he
        have hmem := flatMap_doc_mem p j rest e he
        simp only [decide_eq_true_eq]
        intro hcontra
        rw [hcontra, ← hd] at hmem
        exact hnd.1 hmem
      rw [h2]
      simpa using h1
    · have h1 : ((perDocEmit p j d.1 d.2).1.filter
          fun e => decide (e.document = name)) = [] := by
        rw [List.filter_eq_nil_iff]
        intro e he
        rw [perDocEmit_document p j d.1 d.2 e he]
        simpa using hd
      rw [h1]
      simpa using ih hnd.2

theorem present_names_sublist
    (docs : List (String × Option (List (Nat × String)))) :
    ((docs.filterMap fun d => d.2.map fun pgs => (d.1, pgs)).map Prod.fst).Sublist
      (docs.map Prod.fst) := by
  induction docs with
  | nil => simp
  | cons d rest ih =>
    obtain ⟨fn, pages?⟩ := d
    cases pages? with
    | none => simpa [List.filterMap_cons] using ih.cons fn
    | some pages => simpa [List.filterMap_cons] using ih.cons₂ fn

/-! ## Claims -/

/-- Claim C1, counterexample.  The claim asserts that for texts matching
the numbered pattern the level is determined by the number of groups in
the prefix, one group giving H1.  The text of span "1. Mr. Smith" matches
the pattern, its prefix has exactly one numeric group, yet the classifier
returns H2, because the code counts every dot of the whole text, not the
prefix groups. -/
theorem c1_counterexample :
    numPatMatch "1. Mr. Smith" = true ∧
    prefixGroupCount "1. Mr. Smith" = 1 ∧
    detect_heading_level "1. Mr. Smith" 12 0 none = some "H2" := by
  refine ⟨by decide, by decide, by decide⟩

/-- Claim C1, amended.  For every span whose text matches the numbered
pattern, the Span Classifier's result depends only on the total count of
dot characters in the whole text (one gives H1, two H2, anything else H3),
independently of font size, flags, keywords and the previous font size.
Moreover the pattern requires whitespace after the final dot-terminated
group, so "1. Introduction" matches while "2.1 Overview" and
"3.2.1 Detail" do not match the pattern at all. -/
theorem c1_numbered_level_by_total_dot_count :
    (∀ (text : String) (size : ℚ) (flags : Nat) (prev : Option ℚ),
      numPatMatch text = true →
        detect_heading_level text size flags prev =
          (if countChar '.' text = 1 then some "H1"
           else if countChar '.' text = 2 then some "H2"
           else some "H3")) ∧
    numPatMatch "1. Introduction" = true ∧
    numPatMatch "2.1 Overview" = false ∧
    numPatMatch "3.2.1 Detail" = false := by
  refine ⟨?_, by decide, by decide, by decide⟩
  intro text size flags prev h
  simp only [detect_heading_level, h, if_true]

/-- Claim C1, witness: the amended rule applied to span "1. Introduction"
with an arbitrary small font. -/
theorem c1_witness :
    detect_heading_level "1. Introduction" 10 0 none = some "H1" := by
  have h := c1_numbered_level_by_total_dot_count.1 "1. Introduction" 10 0 none (by decide)
  rw [h]
  decide

/-- Claim C4, counterexample.  The claim asserts the noise filter never
drops a numbered heading however short, with the text "1." alone as the
example survivor.  But the numbered pattern demands whitespace after the
dot, so the bare text "1." fails it and, being shorter than 4 characters,
is dropped by the filter. -/
theorem c4_counterexample :
    numPatMatch "1." = false ∧
    noiseFilter [⟨"H1", "1.", 1⟩] = [] := by
  refine ⟨by decide, by decide⟩

/-- Claim C4, amended.  The noise filter keeps exactly the candidates
whose text has at least 4 characters or matches the numbered pattern;
since the pattern requires trailing whitespace, "1. " (with the space)
survives at any length while the bare "1." is dropped. -/
theorem c4_noise_filter :
    (∀ (cs : List OutlineItem) (c : OutlineItem),
      c ∈ noiseFilter cs ↔
        c ∈ cs ∧ (HEADING_MIN_LENGTH ≤ c.text.length ∨ numPatMatch c.text = true)) ∧
    numPatMatch "1." = false ∧
    numPatMatch "1. " = true := by
  refine ⟨?_, by decide, by decide⟩
  intro cs c
  simp [noiseFilter, List.mem_filter]

/-- Claim C5, counterexample.  The claim asserts the keywordMatches term
counts keywords of the union of the persona and job lists, so a shared
keyword contributes once.  The keyword "coastal" belongs to both the
travel planner list and the plan-a-trip list; on a section whose content
is that single word the code counts 2 while the union count is 1. -/
theorem c5_counterexample :
    keyword_matches_of ⟨"", 1, 0, ["coastal"], none⟩ "travel planner" "plan a trip" = 2 ∧
    keyword_matches_union ⟨"", 1, 0, ["coastal"], none⟩ "travel planner" "plan a trip" = 1 := by
  refine ⟨by decide, by decide⟩

/-- Claim C5, amended.  The keywordMatches term of the Relevance Scorer
counts over the concatenation of the persona keyword list and the job
keyword list: it always equals the persona-list hits plus the job-list
hits, so a keyword present in both lists contributes twice, not once. -/
theorem c5_keyword_concat :
    ∀ (sec : Sec) (persona job : String),
      keyword_matches_of sec persona job =
        kwHits sec (lookupKw persona_keywords (pyLow persona)) +
          kwHits sec (lookupKw job_keywords (pyLow job)) := by
  intro sec persona job
  simp [keyword_matches_of, kwHits, List.filter_append]

/-- Claim C7, counterexample.  The full Outline Normalizer is not
idempotent: dropping a short middle candidate by the noise filter can
make two same-page same-level candidates adjacent, so a second run merges
them. -/
theorem c7_counterexample :
    clean_outline (clean_outline
        [⟨"H1", "alpha one", 1⟩, ⟨"H2", "ab", 1⟩, ⟨"H1", "beta two", 1⟩]) ≠
      clean_outline [⟨"H1", "alpha one", 1⟩, ⟨"H2", "ab", 1⟩, ⟨"H1", "beta two", 1⟩] := by
  decide

/-- Claim C7, amended.  The deduplication stage of the Outline Normalizer
is idempotent on its own output (the spec sentence the claim generalised
from); the composed normalizer is not, as the counterexample shows. -/
theorem c7_dedup_idempotent :
    ∀ xs : List OutlineItem, removeDuplicates (removeDuplicates xs) = removeDuplicates xs := by
  intro xs
  have hk := dedupGo_keys xs []
  exact dedupGo_fixed (dedupGo [] xs) [] hk.1 (fun k _ => by simp)

/-- Claim C2, counterexample.  The claim asserts a section's content runs
to the next header even across a page boundary.  In this two-page input
the non-header line "gamma delta" of page 2 precedes the next header
"HEADER TWO", yet the first section's content stops at the end of page 1
(and the page-2 line before its first header is dropped). -/
theorem c2_counterexample :
    (identify_sections [(1, "HEADER ONE\nalpha beta"), (2, "gamma delta\nHEADER TWO")]).map
        (fun s => s.content) = [["alpha beta"], []] := by
  decide

/-- Claim C2, amended.  The Section Segmenter restarts at every page: the
sections of a page-to-text mapping are exactly the per-page blocks, where
each section's content is every non-header stripped line after its header
up to the next header of the same page or the end of that page, and lines
of a page before its first header are dropped. -/
theorem c2_sections_per_page :
    ∀ pages : List (Nat × String),
      identify_sections pages =
        pages.flatMap fun pq => specPageBlocks pq.1 (prepLines 0 (pyLines pq.2)) := by
  intro pages
  rw [identify_sections_flatMap]
  have hfun : (fun pq : Nat × String => pageGo pq.1 (pyLines pq.2) 0 none) =
      fun pq : Nat × String => specPageBlocks pq.1 (prepLines 0 (pyLines pq.2)) :=
    funext fun pq => (pageGo_eq_blocks pq.1 (pyLines pq.2) 0).1
  rw [hfun]

/-- Claim C3, counterexample.  The claim asserts the non-empty metadata
title always wins.  For a document with metadata title "Meta", an empty
embedded TOC and a single large page-1 span "Big", the signal-strategy
fallback runs and overwrites the title with the page-1 largest-font text,
so the produced title is "Big". -/
theorem c3_counterexample :
    (PdfDoc.mk "Meta" [] [[⟨"Big", 20, 0⟩]]).metaTitle = "Meta" ∧
    (process_pdf (PdfDoc.mk "Meta" [] [[⟨"Big", 20, 0⟩]])).1 = "Big" := by
  refine ⟨rfl, by decide⟩

/-- Claim C3, amended.  The metadata-title priority only governs the TOC
strategy: when the embedded TOC is non-empty the title is the metadata
title if non-empty and otherwise the page-1 largest-font scan, but when
the TOC is empty the signal-strategy fallback recomputes and overwrites
the title with its own page-1 largest-font scan, even when the metadata
title is non-empty. -/
theorem c3_title_choice :
    ∀ doc : PdfDoc,
      (process_pdf doc).1 =
        if doc.toc = [] then (extract_outline_by_signals doc).1
        else if doc.metaTitle ≠ "" then doc.metaTitle
        else
          match doc.pages with
          | [] => ""
          | first :: _ => (titleScan first).2 := by
  intro doc
  obtain ⟨mt, toc, pages⟩ := doc
  cases toc with
  | nil => simp [process_pdf, extract_pdf_outline]
  | cons e rest =>
    by_cases hmt : mt = ""
    · simp [process_pdf, extract_pdf_outline, hmt]
    · simp [process_pdf, extract_pdf_outline, hmt]

set_option maxRecDepth 200000 in
/-- Claim C8, counterexample.  A content whose collapsed join is 501
characters with no dot and a space at position 500: the claim predicts
the hard 500-character truncation, but the code strips the result, whose
length is 499, so the refined text is not the 500-character truncation. -/
theorem c8_counterexample :
    extract_refined_text [⟨List.replicate 499 'a'⟩, "b"] = ⟨List.replicate 499 'a'⟩ ∧
    pyTake 500 (collapseWs (joinSpaces [⟨List.replicate 499 'a'⟩, "b"])) ≠
      ⟨List.replicate 499 'a'⟩ := by
  constructor
  · decide
  · decide

/-- Claim C8, amended.  The refined text is the space-joined,
whitespace-collapsed content with the branch result finally stripped:
over 500 characters, the first two dot-separated sentences when more than
one sentence exists, else the stripped first 500 characters; therefore
its length is at most 500 unless it is the (stripped) two-sentence
truncation, which may exceed 500. -/
theorem c8_refined_text :
    ∀ lines : List String,
      (extract_refined_text lines =
        pyStrip
          (if 500 < (collapseWs (joinSpaces lines)).length then
            if 1 < (pySplitDot (collapseWs (joinSpaces lines))).length then
              String.intercalate ". "
                  ((pySplitDot (collapseWs (joinSpaces lines))).take 2) ++ "."
            else pyTake 500 (collapseWs (joinSpaces lines))
          else collapseWs (joinSpaces lines))) ∧
      ((extract_refined_text lines).length ≤ 500 ∨
        extract_refined_text lines =
          pyStrip (String.intercalate ". "
              ((pySplitDot (collapseWs (joinSpaces lines))).take 2) ++ ".")) := by
  intro lines
  have hdesc : extract_refined_text lines =
      pyStrip
        (if 500 < (collapseWs (joinSpaces lines)).length then
          if 1 < (pySplitDot (collapseWs (joinSpaces lines))).length then
            String.intercalate ". "
                ((pySplitDot (collapseWs (joinSpaces lines))).take 2) ++ "."
          else pyTake 500 (collapseWs (joinSpaces lines))
        else collapseWs (joinSpaces lines)) := by
    cases lines with
    | nil => decide
    | cons l rest => rfl
  refine ⟨hdesc, ?_⟩
  rw [hdesc]
  by_cases h5 : 500 < (collapseWs (joinSpaces lines)).length
  · by_cases hs : 1 < (pySplitDot (collapseWs (joinSpaces lines))).length
    · right
      rw [if_pos h5, if_pos hs]
    · left
      rw [if_pos h5, if_neg hs]
      refine le_trans (pyStrip_length_le _) ?_
      show (pyTake 500 (collapseWs (joinSpaces lines))).length ≤ 500
      simp only [pyTake, String.length]
      exact List.length_take_le 500 _
  · left
    rw [if_neg h5]
    exact le_trans (pyStrip_length_le _) (Nat.le_of_not_lt h5)

/-- Claim C6, confirmed.  For every collection: the final
extracted_sections list is sorted by importance_rank ascending; entries
of equal rank keep the per-document emission order (document-processing
order); when the configured filenames are distinct at most 3 entries
carry any one document name; each document emits at most 3 entries whose
importance_rank is the 1-based position among its retained sections; and
the retained sections are the stable descending-score sort, whose ties
keep segmentation order. -/
theorem c6_collection_ranker :
    ∀ (p j : String) (docs : List (String × Option (List (Nat × String)))),
      (stableSortBy rankLe (docLoop p j docs).1).Pairwise
        (fun a b => a.importance_rank ≤ b.importance_rank) ∧
      (∀ r : Nat, (stableSortBy rankLe (docLoop p j docs).1).filter
          (fun e => decide (e.importance_rank = r)) =
        ((docLoop p j docs).1).filter (fun e => decide (e.importance_rank = r))) ∧
      ((docs.map Prod.fst).Nodup → ∀ name : String,
        ((stableSortBy rankLe (docLoop p j docs).1).filter
            (fun e => decide (e.document = name))).length ≤ 3) ∧
      (∀ (fn : String) (pages : List (Nat × String)),
        (perDocEmit p j fn pages).1.length ≤ 3 ∧
        ∀ (i : Nat) (hi : i < (perDocEmit p j fn pages).1.length),
          ((perDocEmit p j fn pages).1.get ⟨i, hi⟩).importance_rank = i + 1) ∧
      (∀ (fn : String) (pages : List (Nat × String)),
        (perDocTop p j fn pages).Pairwise (fun a b => b.2 ≤ a.2) ∧
        ∀ q : ℚ, (stableSortBy scoreDesc (perDocScored p j fn pages)).filter
            (fun x => decide (x.2 = q)) =
          (perDocScored p j fn pages).filter (fun x => decide (x.2 = q))) := by
  intro p j docs
  refine ⟨?_, ?_, ?_, ?_, ?_⟩
  · exact (stableSortBy_pairwise rankLe rankLe_trans rankLe_total _).imp
      (fun h => by simpa [rankLe] using h)
  · intro r
    refine stableSortBy_filter rankLe _ ?_ _
    intro x y hx hy
    simp only [decide_eq_true_eq] at hx hy
    simp [rankLe, hx, hy]
  · intro hnd name
    rw [((stableSortBy_perm rankLe _).filter
      (fun e => decide (e.document = name))).length_eq]
    rw [docLoop_eq]
    exact flatMap_filter_doc_le p j _ ((present_names_sublist docs).nodup hnd) name
  · intro fn pages
    exact ⟨perDocEmit_length_le p j fn pages, perDocEmit_rank p j fn pages⟩
  · intro fn pages
    constructor
    · exact ((stableSortBy_pairwise scoreDesc scoreDesc_trans scoreDesc_total
        (perDocScored p j fn pages)).sublist (List.take_sublist 3 _)).imp
          (fun h => by simpa [scoreDesc] using h)
    · intro q
      refine stableSortBy_filter scoreDesc _ ?_ _
      intro x y hx hy
      simp only [decide_eq_true_eq] at hx hy
      simp [scoreDesc, hx, hy]

/-- Claim C6, witness: the ranker properties instantiated on the concrete
two-document collection. -/
theorem c6_witness :
    ((stableSortBy rankLe (docLoop "" "" ceDocs).1).filter
        (fun e => decide (e.document = "a.pdf"))).length ≤ 3 ∧
    (stableSortBy rankLe (docLoop "" "" ceDocs).1).Pairwise
      (fun a b => a.importance_rank ≤ b.importance_rank) := by
  have h := c6_collection_ranker "" "" ceDocs
  exact ⟨h.2.2.1 (by decide) "a.pdf", h.1⟩

/-- Claim C9, confirmed.  The run exits 0 exactly when the configuration
file exists and the PDFs directory exists under one of the two casings,
and exits 1 with no output otherwise; within a run, documents with
missing PDF files are exactly skipped (processing equals processing of
the present documents only) and their filenames are logged. -/
theorem c9_error_isolation :
    (∀ fs : CollectionFS,
      (mainRun fs).1 =
        if fs.config.isSome && (fs.hasPDFsDir || fs.hasPDFSDir) then 0 else 1) ∧
    (∀ fs : CollectionFS,
      (fs.config.isSome && (fs.hasPDFsDir || fs.hasPDFSDir)) = false →
        mainRun fs = (1, none)) ∧
    (∀ (p j : String) (docs : List (String × Option (List (Nat × String)))),
      (docLoop p j docs).1 = (docLoop p j (docs.filter fun d => d.2.isSome)).1 ∧
      (docLoop p j docs).2.1 =
        (docLoop p j (docs.filter fun d => d.2.isSome)).2.1 ∧
      (docLoop p j docs).2.2 = (docs.filter fun d => d.2.isNone).map Prod.fst) := by
  refine ⟨?_, ?_, ?_⟩
  · intro fs
    obtain ⟨cfg?, d1, d2, files⟩ := fs
    cases cfg? <;> cases d1 <;> cases d2 <;>
      simp [mainRun, process_collection]
  · intro fs h
    obtain ⟨cfg?, d1, d2, files⟩ := fs
    cases cfg? <;> cases d1 <;> cases d2 <;>
      simp_all [mainRun, process_collection]
  · intro p j docs
    induction docs with
    | nil => exact ⟨rfl, rfl, rfl⟩
    | cons d rest ih =>
      obtain ⟨fn, pages?⟩ := d
      cases pages? with
      | none => simp [docLoop, List.filter_cons, ih.1, ih.2.1, ih.2.2]
      | some pages => simp [docLoop, List.filter_cons, ih.1, ih.2.1, ih.2.2]

/-- Claim C9, witness: the missing-directory collection aborts with exit
code 1 and no output, and the missing file of the two-document list is
logged while processing continues. -/
theorem c9_witness :
    mainRun ceNoDirFs = (1, none) ∧
    (docLoop "" "" ceMissDocs).2.2 = ["miss.pdf"] := by
  have h := c9_error_isolation
  refine ⟨h.2.1 ceNoDirFs (by decide), ?_⟩
  rw [(h.2.2 "" "" ceMissDocs).2.2]
  decide

/-- Claim C10, confirmed.  The two output lists always have the same
length; subsection_analysis is exactly the per-document emission order
while extracted_sections is that emission re-sorted by importance rank;
and on the concrete two-document collection the entry at index 1 of
extracted_sections belongs to the second document while index 1 of
subsection_analysis belongs to the first, so equal indices need not
describe the same section. -/
theorem c10_subsection_alignment :
    (∀ (p j : String) (docs : List (String × Option (List (Nat × String)))),
      (stableSortBy rankLe (docLoop p j docs).1).length =
        (docLoop p j docs).2.1.length) ∧
    (∀ (fs : CollectionFS) (cfg : InputConfig) (r : CollOutput × List String),
      fs.config = some cfg → (fs.hasPDFsDir || fs.hasPDFSDir) = true →
      process_collection fs = Except.ok r →
        r.1.extracted_sections.length = r.1.subsection_analysis.length ∧
        r.1.subsection_analysis =
          (docLoop cfg.persona cfg.job
            (cfg.documents.map fun fn => (fn, findPdf fs fn))).2.1 ∧
        r.1.extracted_sections =
          stableSortBy rankLe
            (docLoop cfg.persona cfg.job
              (cfg.documents.map fun fn => (fn, findPdf fs fn))).1) ∧
    ((ceOk.1.extracted_sections[1]?).map (fun e => e.document) = some "b.pdf" ∧
     (ceOk.1.subsection_analysis[1]?).map (fun e => e.document) = some "a.pdf") := by
  have hlen : ∀ (p j : String) (docs : List (String × Option (List (Nat × String)))),
      (stableSortBy rankLe (docLoop p j docs).1).length =
        (docLoop p j docs).2.1.length := by
    intro p j docs
    rw [(stableSortBy_perm rankLe _).length_eq]
    exact docLoop_lengths p j docs
  refine ⟨hlen, ?_, by decide, by decide⟩
  intro fs cfg r h1 h2 hok
  simp only [process_collection, h1, h2, if_true] at hok
  have hr := Except.ok.inj hok
  rw [← hr]
  refine ⟨?_, rfl, rfl⟩
  exact hlen cfg.persona cfg.job _

/-- Claim C10, witness: the equal-length property read off the concrete
two-document collection output. -/
theorem c10_witness :
    ceOk.1.extracted_sections.length = ceOk.1.subsection_analysis.length := by
  have h := c10_subsection_alignment.2.1 ceFs ceConfig ceOk rfl (by decide)
    (except_ok_of_toOption _ _ (by decide))
  exact h.1

end PdfSpec
